import Mathlib

/-!
Shallow embedding of the Screencook kitchen-order server (`src/index.js`,
first variant — the one whose line numbers the specification cites).

The program keeps a global mutable array `orders`; the only mutation points
are `orders.unshift(newOrder)` in the `send` handler followed by `broadcast`
(which runs `pruneAndLimit`), the `/api/orders` read (which runs
`pruneAndLimit` first), and a 30-second `setInterval` tick that runs
`pruneAndLimit` and emits an update when the length changed.

Machine integers are modelled as `Int`; JS `Array.prototype.sort` with a
consistent comparator is stable, so it is modelled with the stable
`List.mergeSort`.  The clock (`Date.now()`) is passed explicitly as `now`.
-/

namespace Screencook

/-- An order record, exactly the object built in the `send` handler:
`{ id, orderNo, prepMinutes, createdAt, endsAt, expiresAt, items }`
(`src/index.js` lines 438–446).  `id` abstracts the generated UUID. -/
structure Order where
  id : Nat
  orderNo : String
  prepMinutes : Int
  createdAt : Int
  endsAt : Int
  expiresAt : Int
  items : List (String × Nat)
deriving DecidableEq

/-- The comparator `(a, b) => b.createdAt - a.createdAt` of the JS sort:
`a` may come before `b` exactly when `b.createdAt ≤ a.createdAt`
(descending `createdAt`; ties keep their relative order since the sort is
stable). -/
def ordersDesc (a b : Order) : Bool := decide (b.createdAt ≤ a.createdAt)

/-- `pruneAndLimit` (`src/index.js` lines 69–74): drop expired orders
(`o.expiresAt > now` kept), sort by `createdAt` descending, keep the first
10. -/
def pruneAndLimit (now : Int) (orders : List Order) : List Order :=
  (((orders.filter fun o => decide (now < o.expiresAt)).mergeSort ordersDesc).take 10)

/-- The `/api/orders` read (`src/index.js` lines 101–105): it runs
`pruneAndLimit` first and then serves the resulting list. -/
def apiOrders (now : Int) (orders : List Order) : List Order :=
  pruneAndLimit now orders

/-- The notification condition of the periodic 30-second tick
(`src/index.js` lines 112–116): record the length, run `pruneAndLimit`,
and emit `orders:update` exactly when the length changed. -/
def periodicNotifies (now : Int) (orders : List Order) : Bool :=
  (pruneAndLimit now orders).length != orders.length

/-- The order record built by the `send` handler (`src/index.js` lines
434–446) from the admission clock reading `now` and the draft fields:
`createdAt = now`, `endsAt = createdAt + prepMinutes * 60_000`,
`expiresAt = endsAt + 5 * 60_000`. -/
def mkOrder (newId : Nat) (orderNo : String) (prepMinutes : Int)
    (items : List (String × Nat)) (now : Int) : Order :=
  { id := newId
    orderNo := orderNo
    prepMinutes := prepMinutes
    createdAt := now
    endsAt := now + prepMinutes * 60000
    expiresAt := now + prepMinutes * 60000 + 5 * 60000
    items := items }

/-- One successful submission as performed by the `send` handler:
`orders.unshift(newOrder)` followed by `broadcast`, which runs
`pruneAndLimit` (`src/index.js` lines 438–448, 76–79). -/
def submitStep (os : List Order) (s : Order × Int) : List Order :=
  pruneAndLimit s.2 (s.1 :: os)

/-- The store obtained from the empty store by a sequence of successful
submissions, each given as (admitted order, admission clock reading). -/
def runSubmissions (subs : List (Order × Int)) : List Order :=
  subs.foldl submitStep []

/-- The session `step` field values of `getState` (`src/index.js` lines
145–156). -/
inductive Step
  | idle
  | enteringOrder
  | enteringTime
  | selectingItems
deriving DecidableEq

/-- The per-user session state of `getState` (`src/index.js` lines
145–156): `step`, `orderNo`, `prepMinutes`, the cart (a JS object used as
an insertion-ordered name → quantity map, modelled as an association
list), and the current category key `cat`. -/
structure SessionState where
  step : Step
  orderNo : String
  prepMinutes : Int
  cart : List (String × Nat)
  cat : Option String
deriving DecidableEq

/-- The state installed by `getState` on first contact:
`{ step: "idle", orderNo: "", prepMinutes: 25, cart: {}, cat: null }`. -/
def initialState : SessionState :=
  { step := .idle, orderNo := "", prepMinutes := 25, cart := [], cat := none }

/-- `st.cart[name] = (st.cart[name] || 0) + 1` on a JS object: an existing
key is updated in place, a new key is appended at the end. -/
def cartAdd (cart : List (String × Nat)) (name : String) : List (String × Nat) :=
  if cart.any fun e => e.1 == name then
    cart.map fun e => if e.1 == name then (e.1, e.2 + 1) else e
  else cart ++ [(name, 1)]

/-- The `rem:` handler's cart update (`src/index.js` lines 404–415):
`v = (cart[name] || 0) - 1`; if `v ≤ 0` the key is deleted, otherwise it
is set to `v` in place. -/
def cartRemove (cart : List (String × Nat)) (name : String) : List (String × Nat) :=
  if (cart.lookup name).getD 0 ≤ 1 then
    cart.filter fun e => !(e.1 == name)
  else
    cart.map fun e => if e.1 == name then (e.1, e.2 - 1) else e

/-- The reply-keyboard button text that starts a new order. -/
def BTN_NEW : String := "🧾 Новый заказ"

/-- Models the JS builtin `String.prototype.trim`: strips whitespace from
both ends.  (Defined on the character list so that it is executable by the
kernel; Lean's own `String.trim` is semantically the same but is not
kernel-reducible.) -/
def jsTrim (s : String) : String :=
  ⟨((s.data.dropWhile Char.isWhitespace).reverse.dropWhile Char.isWhitespace).reverse⟩

/-- Which reply the text handler (`src/index.js` lines 298–326) produced. -/
inductive TextReply
  | handledByHears
  | askTime
  | invalidNumber
  | composerShown
  | pressNewPrompt
deriving DecidableEq

/-- The `bot.hears(BTN_NEW)` handler (`src/index.js` lines 285–295). -/
def hearsNew (st : SessionState) : SessionState :=
  { st with step := .enteringOrder, orderNo := "", prepMinutes := 25
            cart := [], cat := none }

/-- The `bot.start` handler's session effect (`src/index.js` lines
277–282): it only resets `step` to idle. -/
def startCommand (st : SessionState) : SessionState :=
  { st with step := .idle }

/-- The `edit` action (`src/index.js` lines 364–374): same reset as a new
order. -/
def editAction (st : SessionState) : SessionState :=
  { st with step := .enteringOrder, orderNo := "", prepMinutes := 25
            cart := [], cat := none }

/-- The `bot.on("text")` handler (`src/index.js` lines 298–326).  `txt` is
the raw message text; the handler works on `txt.trim()`.  `numVal` models
the JS primitive `Number(trimmed text)`: `none` when the result is not
finite (`NaN` or an infinity), `some q` for a finite numeric value.  In
the `entering_time` step the input is rejected unless finite and in
`[1, 240]`; on success `Math.floor` of it is stored. -/
def onText (txt : String) (numVal : Option ℚ) (st : SessionState) :
    SessionState × TextReply :=
  let t := jsTrim txt
  if t = BTN_NEW then (st, .handledByHears)
  else if st.step = .enteringOrder then
    ({ st with orderNo := t, step := .enteringTime }, .askTime)
  else if st.step = .enteringTime then
    match numVal with
    | none => (st, .invalidNumber)
    | some n =>
      if n < 1 ∨ 240 < n then (st, .invalidNumber)
      else ({ st with prepMinutes := ⌊n⌋, step := .selectingItems }, .composerShown)
  else (st, .pressNewPrompt)

/-- The `cat:` action via `showDishes` (`src/index.js` lines 335–340,
244–269): records the selected category key. -/
def catAction (key : String) (st : SessionState) : SessionState :=
  { st with cat := some key }

/-- The `add:` action (`src/index.js` lines 342–353): increments the cart
entry; no step guard, no other field changes. -/
def addAction (name : String) (st : SessionState) : SessionState :=
  { st with cart := cartAdd st.cart name }

/-- The `clear` action (`src/index.js` lines 355–362): empties the cart. -/
def clearAction (st : SessionState) : SessionState :=
  { st with cart := [] }

/-- The `rem:` action (`src/index.js` lines 404–415). -/
def remAction (name : String) (st : SessionState) : SessionState :=
  { st with cart := cartRemove st.cart name }

/-- The session reset performed at the end of a successful `send`
(`src/index.js` lines 455–460). -/
def resetState (st : SessionState) : SessionState :=
  { st with step := .idle, orderNo := "", prepMinutes := 25
            cart := [], cat := none }

/-- Outcome of the `send` action: the two rejection replies
(`"❌ Нет номера заказа"` when the trimmed order number is empty,
`"❌ Корзина пустая"` when the cart has no entries) or the admitted
order. -/
inductive SendResult
  | rejectedEmptyLabel
  | rejectedEmptyCart
  | sent (o : Order)
deriving DecidableEq

/-- The `send` action (`src/index.js` lines 418–461).  `newId` abstracts
`crypto.randomUUID()`, `now` is `Date.now()`.  Checks, in this
order: non-empty trimmed order number, then non-empty item list
(`Object.entries(st.cart)`, the association list itself); on rejection it
returns early, leaving session and store untouched.  On success it
unshifts the new order, runs `broadcast` (hence `pruneAndLimit`), and
resets the session. -/
def sendAction (newId : Nat) (now : Int) (st : SessionState) (os : List Order) :
    SendResult × SessionState × List Order :=
  let items := st.cart
  if jsTrim st.orderNo = "" then (.rejectedEmptyLabel, st, os)
  else if items = [] then (.rejectedEmptyCart, st, os)
  else
    let o := mkOrder newId (jsTrim st.orderNo) st.prepMinutes items now
    (.sent o, resetState st, pruneAndLimit now (o :: os))

/-- The inbound intents the bot registers handlers for.  `text` carries
the raw text together with the `Number` parse of its trim (see `onText`);
`send` carries the generated id and the clock reading. -/
inductive BotInput
  | start
  | hearsNewOrder
  | text (txt : String) (numVal : Option ℚ)
  | catSelect (key : String)
  | add (name : String)
  | rem (name : String)
  | clear
  | edit
  | send (newId : Nat) (now : Int)

/-- The session-state effect of one inbound update, handler by handler.
The `send` handler's session effect does not depend on the store, so the
empty store is passed as a placeholder.  (The `cats`, `remove_mode` and
`back_to_dishes` actions do not mutate the session and are omitted; a
denied user — `isAllowed` false — causes no mutation either.) -/
def sessionAfter (st : SessionState) : BotInput → SessionState
  | .start => startCommand st
  | .hearsNewOrder => hearsNew st
  | .text txt numVal => (onText txt numVal st).1
  | .catSelect key => catAction key st
  | .add name => addAction name st
  | .rem name => remAction name st
  | .clear => clearAction st
  | .edit => editAction st
  | .send newId now => (sendAction newId now st []).2.1

/-- The session state reached from a fresh session by a sequence of
inbound updates. -/
def runInputs (l : List BotInput) : SessionState :=
  l.foldl sessionAfter initialState

/-- The three timer colour classes of the screen script (`timerClass`,
`src/index.js` lines 575–580): green = Normal, orange = Warning,
red = Critical. -/
inductive TimerClass
  | tGreen
  | tOrange
  | tRed
deriving DecidableEq

/-- `timerClass(remainingMs)` (`src/index.js` lines 575–580):
`mins = remainingMs / 60000` (exact JS division, modelled on ℚ); green
when `mins > 25`, orange when `mins > 5`, red otherwise. -/
def timerClass (remainingMs : ℚ) : TimerClass :=
  if remainingMs / 60000 > 25 then .tGreen
  else if remainingMs / 60000 > 5 then .tOrange
  else .tRed

/-- `ordersDesc` is total. -/
theorem ordersDesc_total (a b : Order) : ordersDesc a b || ordersDesc b a := by
  simp only [ordersDesc, Bool.or_eq_true, decide_eq_true_eq]
  exact le_total b.createdAt a.createdAt

/-- `ordersDesc` is transitive. -/
theorem ordersDesc_trans (a b c : Order) :
    ordersDesc a b → ordersDesc b c → ordersDesc a c := by
  simp only [ordersDesc, decide_eq_true_eq]
  exact fun h h' => le_trans h' h

/-- Every order surviving `pruneAndLimit` is one of the input orders,
with all its fields untouched. -/
theorem mem_of_mem_pruneAndLimit {now : Int} {os : List Order} {o : Order}
    (h : o ∈ pruneAndLimit now os) : o ∈ os := by
  have h1 : o ∈ (os.filter fun o => decide (now < o.expiresAt)).mergeSort ordersDesc :=
    List.mem_of_mem_take h
  have h2 : o ∈ os.filter fun o => decide (now < o.expiresAt) :=
    List.mem_mergeSort.mp h1
  exact List.mem_of_mem_filter h2

/-- Every order surviving `pruneAndLimit` is unexpired at the pruning
instant. -/
theorem unexpired_of_mem_pruneAndLimit {now : Int} {os : List Order} {o : Order}
    (h : o ∈ pruneAndLimit now os) : now < o.expiresAt := by
  have h1 : o ∈ (os.filter fun o => decide (now < o.expiresAt)).mergeSort ordersDesc :=
    List.mem_of_mem_take h
  have h2 : o ∈ os.filter fun o => decide (now < o.expiresAt) :=
    List.mem_mergeSort.mp h1
  simpa using List.of_mem_filter h2

/-- The output of `pruneAndLimit` is sorted by `createdAt` descending. -/
theorem pruneAndLimit_sorted (now : Int) (os : List Order) :
    (pruneAndLimit now os).Pairwise fun a b => b.createdAt ≤ a.createdAt := by
  have hs : ((os.filter fun o => decide (now < o.expiresAt)).mergeSort ordersDesc).Pairwise
      fun a b => ordersDesc a b = true :=
    List.sorted_mergeSort ordersDesc_trans ordersDesc_total _
  have hs' := hs.sublist (List.take_sublist 10 _)
  exact hs'.imp fun h => by simpa [ordersDesc] using h

/-- If the input list is already sorted by `createdAt` descending and
entirely unexpired, `pruneAndLimit` just truncates it to 10 entries. -/
theorem pruneAndLimit_of_sorted {now : Int} {os : List Order}
    (hu : ∀ o ∈ os, now < o.expiresAt)
    (hs : os.Pairwise fun a b => b.createdAt ≤ a.createdAt) :
    pruneAndLimit now os = os.take 10 := by
  unfold pruneAndLimit
  have hf : (os.filter fun o => decide (now < o.expiresAt)) = os :=
    List.filter_eq_self.mpr fun o ho => decide_eq_true (hu o ho)
  rw [hf, List.mergeSort_of_sorted (hs.imp fun h => by simpa [ordersDesc] using h)]

end Screencook

namespace Screencook

/-- C1: after `pruneAndLimit` the store holds at most 10 orders, and the
`/api/orders` read always runs `pruneAndLimit` first (it serves exactly the
pruned list), so every snapshot has length at most 10. -/
theorem capacity_invariant (now : Int) (os : List Order) :
    apiOrders now os = pruneAndLimit now os ∧ (pruneAndLimit now os).length ≤ 10 := by
  refine ⟨rfl, ?_⟩
  unfold pruneAndLimit
  exact List.length_take_le 10 _

/-- C2: every order in a snapshot taken at clock time `now` (the
`/api/orders` response after `pruneAndLimit` ran at `now`) satisfies
`expiresAt > now`; expired orders are absent. -/
theorem expiry_invariant (now : Int) (os : List Order) (o : Order)
    (h : o ∈ apiOrders now os) : now < o.expiresAt :=
  unexpired_of_mem_pruneAndLimit h

/-- Witness for C2 at a concrete store: a lone unexpired order is in the
snapshot at time 0 and indeed has `expiresAt > 0`. -/
theorem expiry_invariant_witness :
    (0 : Int) <
      (Order.mk 0 "A" 1 0 60000 360000 [("x", 1)]).expiresAt := by
  refine expiry_invariant 0 [Order.mk 0 "A" 1 0 60000 360000 [("x", 1)]] _ ?_
  rw [apiOrders, pruneAndLimit_of_sorted (by decide) (by decide)]
  exact List.mem_singleton.mpr rfl

/-- `pruneAndLimit` only removes and reorders: its output is a
permutation of a sublist of the input. -/
theorem pruneAndLimit_subperm (now : Int) (os : List Order) :
    List.Subperm (pruneAndLimit now os) os := by
  have h1 : List.Sublist (pruneAndLimit now os)
      ((os.filter fun o => decide (now < o.expiresAt)).mergeSort ordersDesc) :=
    List.take_sublist 10 _
  have h2 : List.Perm ((os.filter fun o => decide (now < o.expiresAt)).mergeSort ordersDesc)
      (os.filter fun o => decide (now < o.expiresAt)) :=
    List.mergeSort_perm _ _
  have h3 : List.Sublist (os.filter fun o => decide (now < o.expiresAt)) os :=
    List.filter_sublist os
  exact (h1.subperm.trans h2.subperm).trans h3.subperm

/-- C6: `pruneAndLimit` is idempotent — running it twice in succession
against the same clock reading, with no intervening mutation, leaves the
store exactly as one run does. -/
theorem normalize_idempotent (now : Int) (os : List Order) :
    pruneAndLimit now (pruneAndLimit now os) = pruneAndLimit now os := by
  rw [pruneAndLimit_of_sorted (fun o ho => unexpired_of_mem_pruneAndLimit ho)
    (pruneAndLimit_sorted now os)]
  exact List.take_of_length_le (by unfold pruneAndLimit; exact List.length_take_le 10 _)

/-- C7: the 30-second tick emits `orders:update` exactly when
normalization changed the set of retained orders.  The tick's condition is
a length comparison; on a store with no duplicate order records (every
reachable store — each admission gets a fresh UUID) the length changes iff
the set of retained orders changes, and a call reporting no change never
notifies. -/
theorem notify_iff_changed (now : Int) (os : List Order) (h : os.Nodup) :
    periodicNotifies now os = true ↔ (pruneAndLimit now os).toFinset ≠ os.toFinset := by
  have hsub : List.Subperm (pruneAndLimit now os) os := pruneAndLimit_subperm now os
  constructor
  · intro hne hfin
    have hnd : (pruneAndLimit now os).Nodup := by
      obtain ⟨l, hperm, hsl⟩ := hsub
      exact hperm.nodup (hsl.nodup h)
    have hc1 : (pruneAndLimit now os).toFinset.card = (pruneAndLimit now os).length :=
      List.toFinset_card_of_nodup hnd
    have hc2 : os.toFinset.card = os.length := List.toFinset_card_of_nodup h
    have hlen : (pruneAndLimit now os).length = os.length := by
      rw [← hc1, ← hc2, hfin]
    simp [periodicNotifies, hlen] at hne
  · intro hfin
    by_contra hne
    have hlen : (pruneAndLimit now os).length = os.length := by
      by_contra hx
      exact hne (by simp [periodicNotifies]; exact hx)
    have hperm : List.Perm (pruneAndLimit now os) os :=
      hsub.perm_of_length_le (le_of_eq hlen.symm)
    exact hfin (List.toFinset_eq_of_perm _ _ hperm)

/-- Witness for C7 at a concrete store: a lone unexpired order at time 0
(the tick removes nothing, so it notifies iff the set changed — both
false). -/
theorem notify_iff_changed_witness :
    periodicNotifies 0 [Order.mk 0 "A" 1 0 60000 360000 [("x", 1)]] = true ↔
      (pruneAndLimit 0 [Order.mk 0 "A" 1 0 60000 360000 [("x", 1)]]).toFinset ≠
        [Order.mk 0 "A" 1 0 60000 360000 [("x", 1)]].toFinset :=
  notify_iff_changed 0 [Order.mk 0 "A" 1 0 60000 360000 [("x", 1)]] (by decide)

/-- C8: the urgency tier of the screen timer is a trichotomy on
`remainingMinutes = remainingMs / 60000`: green (Normal) iff it exceeds
25, orange (Warning) iff it is in (5, 25], red (Critical) iff it is at
most 5; in particular exactly 25 minutes is orange and exactly 5 minutes
is red. -/
theorem urgency_trichotomy (remainingMs : ℚ) :
    (timerClass remainingMs = TimerClass.tGreen ↔ 25 < remainingMs / 60000) ∧
    (timerClass remainingMs = TimerClass.tOrange ↔
      5 < remainingMs / 60000 ∧ remainingMs / 60000 ≤ 25) ∧
    (timerClass remainingMs = TimerClass.tRed ↔ remainingMs / 60000 ≤ 5) ∧
    timerClass (25 * 60000) = TimerClass.tOrange ∧
    timerClass (5 * 60000) = TimerClass.tRed := by
  refine ⟨?_, ?_, ?_, ?_, ?_⟩
  · unfold timerClass
    split_ifs with h1 h2 <;> simp_all
  · unfold timerClass
    split_ifs with h1 h2 <;> simp_all
  · unfold timerClass
    split_ifs with h1 h2
    · simp_all
      linarith
    · simp_all
    · simp_all
  · norm_num [timerClass]
  · norm_num [timerClass]

/-- A `send` with a non-empty trimmed order number and a non-empty cart
admits the order built from the clock reading and prunes the store. -/
theorem sendAction_success (newId : Nat) (now : Int) (st : SessionState)
    (os : List Order) (h1 : jsTrim st.orderNo ≠ "") (h2 : st.cart ≠ []) :
    sendAction newId now st os =
      (SendResult.sent (mkOrder newId (jsTrim st.orderNo) st.prepMinutes st.cart now),
       resetState st,
       pruneAndLimit now (mkOrder newId (jsTrim st.orderNo) st.prepMinutes st.cart now :: os)) := by
  simp only [sendAction]
  rw [if_neg h1, if_neg h2]

/-- C5: an order admitted at clock time `t` with prep duration `m` has
`createdAt = t`, `endsAt = t + m·60000` and `expiresAt = endsAt + 5·60000`
(both fixed at admission — the `send` handler stores exactly `mkOrder`),
and they are never recomputed afterwards: the only later operation,
`pruneAndLimit`, returns its input records verbatim. -/
theorem admission_timestamps (newId : Nat) (label : String) (m : Int)
    (items : List (String × Nat)) (t : Int) :
    (mkOrder newId label m items t).createdAt = t ∧
    (mkOrder newId label m items t).endsAt = t + m * 60000 ∧
    (mkOrder newId label m items t).expiresAt =
      (mkOrder newId label m items t).endsAt + 5 * 60000 ∧
    (∀ st os, jsTrim st.orderNo ≠ "" → st.cart ≠ [] →
      (sendAction newId t st os).1 =
        SendResult.sent (mkOrder newId (jsTrim st.orderNo) st.prepMinutes st.cart t)) ∧
    (∀ now2 os o, o ∈ pruneAndLimit now2 os → o ∈ os) := by
  refine ⟨rfl, rfl, rfl, ?_, ?_⟩
  · intro st os h1 h2
    rw [sendAction_success newId t st os h1 h2]
  · intro now2 os o ho
    exact mem_of_mem_pruneAndLimit ho

/-- Witness for C5: the spec scenario `label="GF-254"`,
`prepDurationMinutes=20` at `t0 = 1000` — the admitted order is
`mkOrder`, whose `endsAt` is `t0 + 1,200,000` and `expiresAt` is
`t0 + 1,500,000`; and a concrete surviving order is returned verbatim. -/
theorem admission_timestamps_witness :
    (sendAction 7 1000
        (SessionState.mk Step.selectingItems "GF-254" 20 [("Борщ", 1), ("Хлеб", 2)] none)
        []).1 =
      SendResult.sent
        (mkOrder 7 (jsTrim "GF-254") 20 [("Борщ", 1), ("Хлеб", 2)] 1000) ∧
    (mkOrder 7 (jsTrim "GF-254") 20 [("Борщ", 1), ("Хлеб", 2)] 1000).endsAt =
      1000 + 20 * 60000 ∧
    Order.mk 0 "A" 1 0 60000 360000 [("x", 1)] ∈
      [Order.mk 0 "A" 1 0 60000 360000 [("x", 1)]] := by
  refine ⟨(admission_timestamps 7 "GF-254" 20 [("Борщ", 1), ("Хлеб", 2)] 1000).2.2.2.1
      (SessionState.mk Step.selectingItems "GF-254" 20 [("Борщ", 1), ("Хлеб", 2)] none)
      [] (by decide) (by decide),
    (admission_timestamps 7 (jsTrim "GF-254") 20 [("Борщ", 1), ("Хлеб", 2)] 1000).2.1,
    (admission_timestamps 7 "GF-254" 20 [("Борщ", 1), ("Хлеб", 2)] 1000).2.2.2.2
      0 [Order.mk 0 "A" 1 0 60000 360000 [("x", 1)]] _ ?_⟩
  rw [pruneAndLimit_of_sorted (by decide) (by decide)]
  exact List.mem_singleton.mpr rfl

/-- C9: the `add:`, `rem:` and `clear` callbacks mutate the cart in every
session step (no step guard), and the `send` callback is likewise
unguarded: from a fresh session, pressing «Новый заказ», typing "GF-1"
(now awaiting the duration), then pressing a stale `add:Борщ` button and
`send` admits an order with the default 25-minute duration while the
session step is still `entering_time`. -/
theorem no_step_guard_submit :
    (∀ st name, (addAction name st).step = st.step) ∧
    (∀ st name, (remAction name st).step = st.step) ∧
    (∀ st, (clearAction st).step = st.step) ∧
    (addAction "Борщ" (onText "GF-1" none (hearsNew initialState)).1).step =
      Step.enteringTime ∧
    sendAction 7 1000 (addAction "Борщ" (onText "GF-1" none (hearsNew initialState)).1) [] =
      (SendResult.sent (mkOrder 7 "GF-1" 25 [("Борщ", 1)] 1000),
       SessionState.mk Step.idle "" 25 [] none,
       [mkOrder 7 "GF-1" 25 [("Борщ", 1)] 1000]) := by
  have hst : addAction "Борщ" (onText "GF-1" none (hearsNew initialState)).1 =
      SessionState.mk Step.enteringTime "GF-1" 25 [("Борщ", 1)] none := by decide
  refine ⟨fun st name => rfl, fun st name => rfl, fun st => rfl, by rw [hst], ?_⟩
  rw [hst, sendAction_success 7 1000 _ [] (by decide) (by decide),
    pruneAndLimit_of_sorted (by decide) (by decide)]
  decide

/-- In the `entering_time` step, the text handler on a text other than
the «Новый заказ» button reduces to the duration check. -/
theorem onText_enteringTime (st : SessionState) (h : st.step = Step.enteringTime)
    (txt : String) (hbtn : jsTrim txt ≠ BTN_NEW) (numVal : Option ℚ) :
    onText txt numVal st =
      match numVal with
      | none => (st, .invalidNumber)
      | some n =>
        if n < 1 ∨ 240 < n then (st, .invalidNumber)
        else ({ st with prepMinutes := ⌊n⌋, step := .selectingItems }, .composerShown) := by
  have h2 : ¬st.step = Step.enteringOrder := by rw [h]; exact fun hx => by cases hx
  simp only [onText, if_neg hbtn, if_neg h2, if_pos h]

/-- C10: in the duration-entry step, any text whose numeric value `q`
satisfies `1 ≤ q ≤ 240` is accepted — integral or not — and the stored
prep duration is `⌊q⌋`; text that is non-numeric or out of range is
rejected with the validation reply, leaving the session unchanged. -/
theorem duration_entry_floor (st : SessionState) (h : st.step = Step.enteringTime)
    (txt : String) (hbtn : jsTrim txt ≠ BTN_NEW) :
    (∀ q : ℚ, 1 ≤ q → q ≤ 240 →
      onText txt (some q) st =
        ({ st with prepMinutes := ⌊q⌋, step := Step.selectingItems },
         TextReply.composerShown)) ∧
    (∀ q : ℚ, q < 1 ∨ 240 < q →
      onText txt (some q) st = (st, TextReply.invalidNumber)) ∧
    onText txt none st = (st, TextReply.invalidNumber) := by
  refine ⟨?_, ?_, ?_⟩
  · intro q hq1 hq2
    rw [onText_enteringTime st h txt hbtn]
    exact if_neg (by push_neg; exact ⟨hq1, hq2⟩)
  · intro q hq
    rw [onText_enteringTime st h txt hbtn]
    exact if_pos hq
  · rw [onText_enteringTime st h txt hbtn]

/-- Witness for C10: the text "12.7" (numeric value 127/10) is accepted
in the duration-entry step and stores `⌊12.7⌋ = 12` minutes. -/
theorem duration_entry_floor_witness :
    onText "12.7" (some (127 / 10)) (SessionState.mk Step.enteringTime "GF-1" 25 [] none) =
      (SessionState.mk Step.selectingItems "GF-1" 12 [] none, TextReply.composerShown) := by
  rw [(duration_entry_floor (SessionState.mk Step.enteringTime "GF-1" 25 [] none) rfl
    "12.7" (by decide)).1 (127 / 10) (by norm_num) (by norm_num)]
  norm_num

/-- No handler can move the session's prep duration out of `[1, 240]`:
the default is 25, every reset stores 25, and the duration-entry step only
stores `⌊q⌋` for an accepted `q ∈ [1, 240]`. -/
theorem sessionAfter_prep_bounds (st : SessionState) (i : BotInput)
    (h1 : 1 ≤ st.prepMinutes) (h2 : st.prepMinutes ≤ 240) :
    1 ≤ (sessionAfter st i).prepMinutes ∧ (sessionAfter st i).prepMinutes ≤ 240 := by
  cases i with
  | start => exact ⟨h1, h2⟩
  | hearsNewOrder =>
    exact ⟨show (1 : ℤ) ≤ 25 by norm_num, show (25 : ℤ) ≤ 240 by norm_num⟩
  | text txt numVal =>
    cases numVal with
    | none =>
      simp only [sessionAfter, onText]
      split_ifs <;> exact ⟨h1, h2⟩
    | some n =>
      simp only [sessionAfter, onText]
      split_ifs with hb ho ht hr
      · exact ⟨h1, h2⟩
      · exact ⟨h1, h2⟩
      · exact ⟨h1, h2⟩
      · push_neg at hr
        refine ⟨Int.le_floor.mpr (by exact_mod_cast hr.1), ?_⟩
        have hle : (⌊n⌋ : ℚ) ≤ 240 := (Int.floor_le n).trans hr.2
        exact_mod_cast hle
      · exact ⟨h1, h2⟩
  | catSelect key => exact ⟨h1, h2⟩
  | add name => exact ⟨h1, h2⟩
  | rem name => exact ⟨h1, h2⟩
  | clear => exact ⟨h1, h2⟩
  | edit =>
    exact ⟨show (1 : ℤ) ≤ 25 by norm_num, show (25 : ℤ) ≤ 240 by norm_num⟩
  | send newId now =>
    simp only [sessionAfter, sendAction]
    split_ifs
    · exact ⟨h1, h2⟩
    · exact ⟨h1, h2⟩
    · exact ⟨show (1 : ℤ) ≤ 25 by norm_num, show (25 : ℤ) ≤ 240 by norm_num⟩

/-- Folding any input sequence preserves the prep-duration range. -/
theorem foldl_prep_bounds (l : List BotInput) :
    ∀ st : SessionState, 1 ≤ st.prepMinutes → st.prepMinutes ≤ 240 →
      1 ≤ (l.foldl sessionAfter st).prepMinutes ∧
        (l.foldl sessionAfter st).prepMinutes ≤ 240 := by
  induction l with
  | nil => exact fun st h1 h2 => ⟨h1, h2⟩
  | cons i rest ih =>
    intro st h1 h2
    obtain ⟨g1, g2⟩ := sessionAfter_prep_bounds st i h1 h2
    simpa using ih (sessionAfter st i) g1 g2

/-- C4 counterexample: the `send` handler performs no duration check.  On
a draft whose prep duration is 0 — outside `[1, 240]` — but whose label
and cart are valid, `send` admits the order instead of rejecting with an
invalid-duration error, and the store is mutated. -/
theorem invalid_duration_accepted :
    sendAction 7 1000 (SessionState.mk Step.selectingItems "A" 0 [("x", 1)] none) [] =
      (SendResult.sent (mkOrder 7 "A" 0 [("x", 1)] 1000),
       SessionState.mk Step.idle "" 25 [] none,
       [mkOrder 7 "A" 0 [("x", 1)] 1000]) := by
  rw [sendAction_success 7 1000 _ [] (by decide) (by decide),
    pruneAndLimit_of_sorted (by decide) (by decide)]
  decide

/-- C4 (amended): `send` rejects `EmptyLabel` when the trimmed label is
empty and otherwise `EmptyCart` when the cart has no entry, leaving
session and store untouched on either rejection; the duration constraint
is enforced at the duration-entry step instead, which rejects 0 and 241
and accepts 240 — and consequently the prep duration of every reachable
session state lies in `[1, 240]`, so a draft built through the session
flow never reaches `send` with an out-of-range duration. -/
theorem submission_validation :
    (∀ (newId : Nat) (now : Int) st os, jsTrim st.orderNo = "" →
      sendAction newId now st os = (SendResult.rejectedEmptyLabel, st, os)) ∧
    (∀ (newId : Nat) (now : Int) st os, jsTrim st.orderNo ≠ "" → st.cart = [] →
      sendAction newId now st os = (SendResult.rejectedEmptyCart, st, os)) ∧
    (∀ st txt, st.step = Step.enteringTime → jsTrim txt ≠ BTN_NEW →
      onText txt (some 0) st = (st, TextReply.invalidNumber) ∧
      onText txt (some 241) st = (st, TextReply.invalidNumber) ∧
      onText txt (some 240) st =
        ({ st with prepMinutes := 240, step := Step.selectingItems },
         TextReply.composerShown)) ∧
    (∀ l : List BotInput,
      1 ≤ (runInputs l).prepMinutes ∧ (runInputs l).prepMinutes ≤ 240) := by
  refine ⟨?_, ?_, ?_, ?_⟩
  · intro newId now st os h
    simp only [sendAction]
    rw [if_pos h]
  · intro newId now st os h1 h2
    simp only [sendAction]
    rw [if_neg h1, if_pos h2]
  · intro st txt h hbtn
    refine ⟨?_, ?_, ?_⟩
    · rw [onText_enteringTime st h txt hbtn]
      exact if_pos (Or.inl (by norm_num))
    · rw [onText_enteringTime st h txt hbtn]
      exact if_pos (Or.inr (by norm_num))
    · rw [onText_enteringTime st h txt hbtn]
      norm_num
  · intro l
    exact foldl_prep_bounds l initialState (by decide) (by decide)

/-- Witness for the amended C4: a blank label is rejected with
`EmptyLabel`, a valid label with an empty cart is rejected with
`EmptyCart` (store `[]` unchanged in both cases), the duration text 0 is
rejected in the duration-entry step, and the fresh session's prep
duration is in range. -/
theorem submission_validation_witness :
    sendAction 3 500 (SessionState.mk Step.selectingItems "  " 25 [("x", 1)] none) [] =
      (SendResult.rejectedEmptyLabel,
       SessionState.mk Step.selectingItems "  " 25 [("x", 1)] none, []) ∧
    sendAction 3 500 (SessionState.mk Step.selectingItems "B" 25 [] none) [] =
      (SendResult.rejectedEmptyCart,
       SessionState.mk Step.selectingItems "B" 25 [] none, []) ∧
    onText "0" (some 0) (SessionState.mk Step.enteringTime "B" 25 [] none) =
      (SessionState.mk Step.enteringTime "B" 25 [] none, TextReply.invalidNumber) ∧
    1 ≤ (runInputs []).prepMinutes :=
  ⟨submission_validation.1 3 500 _ [] (by decide),
   submission_validation.2.1 3 500 _ [] (by decide) rfl,
   (submission_validation.2.2.1 _ "0" rfl (by decide)).1,
   (submission_validation.2.2.2 []).1⟩

/-- Truncating the right summand before an append does not change a
truncation of the whole. -/
theorem take_append_take {α : Type _} (A B : List α) (n : ℕ) :
    (A ++ B.take n).take n = (A ++ B).take n := by
  rw [List.take_append_eq_append_take, List.take_append_eq_append_take, List.take_take,
    Nat.min_eq_left (Nat.sub_le n A.length)]

/-- Folding submissions over a well-formed store: if the store is short,
sorted and fresh relative to the upcoming submissions, the result is the
last-10 suffix of the submission sequence (newest first) padded by the old
store. -/
theorem foldl_submitStep (subs : List (Order × Int)) :
    ∀ os : List Order,
      os.length ≤ 10 →
      (os.Pairwise fun a b => b.createdAt ≤ a.createdAt) →
      (∀ s ∈ subs, ∀ o ∈ os, o.createdAt < s.1.createdAt ∧ s.2 < o.expiresAt) →
      (subs.Pairwise fun a b => a.1.createdAt < b.1.createdAt) →
      (subs.Pairwise fun a b => b.2 < a.1.expiresAt) →
      (∀ s ∈ subs, s.2 < s.1.expiresAt) →
      subs.foldl submitStep os = ((subs.map Prod.fst).reverse ++ os).take 10 := by
  induction subs with
  | nil =>
    intro os hlen _ _ _ _ _
    simpa using (List.take_of_length_le hlen).symm
  | cons s rest ih =>
    intro os hlen hsort hfresh hmono htime hself
    have hfs : ∀ o ∈ os, o.createdAt < s.1.createdAt ∧ s.2 < o.expiresAt :=
      fun o ho => hfresh s (List.mem_cons_self s rest) o ho
    have hsort1 : (s.1 :: os).Pairwise fun a b => b.createdAt ≤ a.createdAt :=
      List.pairwise_cons.mpr ⟨fun o ho => le_of_lt (hfs o ho).1, hsort⟩
    have hstep : submitStep os s = (s.1 :: os).take 10 := by
      unfold submitStep
      apply pruneAndLimit_of_sorted
      · intro o ho
        rcases List.mem_cons.mp ho with h | h
        · rw [h]; exact hself s (List.mem_cons_self s rest)
        · exact (hfs o h).2
      · exact hsort1
    rw [List.foldl_cons, hstep,
      ih ((s.1 :: os).take 10) (List.length_take_le 10 _)
        (hsort1.sublist (List.take_sublist 10 _))
        ?_ (List.pairwise_cons.mp hmono).2 (List.pairwise_cons.mp htime).2
        (fun r hr => hself r (List.mem_cons_of_mem s hr))]
    · rw [take_append_take]
      simp [List.append_assoc]
    · intro r hr o ho
      rcases List.mem_cons.mp (List.mem_of_mem_take ho) with h | h
      · rw [h]
        exact ⟨(List.pairwise_cons.mp hmono).1 r hr, (List.pairwise_cons.mp htime).1 r hr⟩
      · exact hfresh r (List.mem_cons_of_mem s hr) o h

/-- C3: 11 successful submissions with strictly increasing `createdAt`
(each order unexpired at its own and at every later submission time) leave
exactly the 10 most recent orders, newest first: the store equals the
reversed submission list truncated to 10, has length 10, omits the very
first submission, and is strictly sorted by `createdAt` descending. -/
theorem eleven_submissions (subs : List (Order × Int))
    (hlen : subs.length = 11)
    (hmono : subs.Pairwise fun a b => a.1.createdAt < b.1.createdAt)
    (htime : subs.Pairwise fun a b => b.2 < a.1.expiresAt)
    (hself : ∀ s ∈ subs, s.2 < s.1.expiresAt) :
    runSubmissions subs = ((subs.map Prod.fst).reverse).take 10 ∧
    (runSubmissions subs).length = 10 ∧
    (∀ s₀ rest, subs = s₀ :: rest → s₀.1 ∉ runSubmissions subs) ∧
    ((runSubmissions subs).Pairwise fun a b => b.createdAt < a.createdAt) := by
  have hrun : runSubmissions subs = ((subs.map Prod.fst).reverse).take 10 := by
    have h := foldl_submitStep subs [] (by simp) (by simp) (by simp) hmono htime hself
    simpa [runSubmissions] using h
  refine ⟨hrun, ?_, ?_, ?_⟩
  · rw [hrun, List.length_take, List.length_reverse, List.length_map, hlen]
    decide
  · intro s₀ rest hsub hmem
    rw [hrun, hsub] at hmem
    have hr10 : (rest.map Prod.fst).reverse.length = 10 := by
      have : rest.length = 10 := by
        have := hlen
        rw [hsub] at this
        simpa using this
      simp [this]
    have hsplit : ((s₀ :: rest).map Prod.fst).reverse.take 10 =
        (rest.map Prod.fst).reverse := by
      rw [List.map_cons, List.reverse_cons, List.take_append_eq_append_take, hr10,
        List.take_of_length_le (le_of_eq hr10)]
      simp
    rw [hsplit] at hmem
    have hmem2 : s₀.1 ∈ rest.map Prod.fst := List.mem_reverse.mp hmem
    obtain ⟨r, hr, hre⟩ := List.mem_map.mp hmem2
    have hlt : s₀.1.createdAt < r.1.createdAt := by
      have hp := List.pairwise_cons.mp (by rw [hsub] at hmono; exact hmono)
      exact hp.1 r hr
    rw [hre] at hlt
    exact lt_irrefl _ hlt
  · rw [hrun]
    have h1 : (subs.map Prod.fst).Pairwise fun a b => a.createdAt < b.createdAt :=
      hmono.map Prod.fst fun a b h => h
    have h2 : ((subs.map Prod.fst).reverse).Pairwise fun a b => b.createdAt < a.createdAt := by
      rw [List.pairwise_reverse]
      exact h1
    exact h2.sublist (List.take_sublist 10 _)

/-- The concrete input for the C3 witness: 11 submissions with
`createdAt = 1000·i` (strictly increasing) and long expiry windows. -/
def witSubs : List (Order × Int) :=
  (List.range 11).map fun i =>
    (mkOrder i "A" 10 [("x", 1)] (1000 * (i : Int)), 1000 * (i : Int))

/-- Witness for C3 at the concrete 11-submission sequence. -/
theorem eleven_submissions_witness :
    runSubmissions witSubs = ((witSubs.map Prod.fst).reverse).take 10 ∧
    (runSubmissions witSubs).length = 10 := by
  have h := eleven_submissions witSubs (by decide) (by decide) (by decide) (by decide)
  exact ⟨h.1, h.2.1⟩

end Screencook
